import Mathlib

/-!
Verification of the annotation-to-training-format conversion logic and the
Rasa trainer orchestration of `backend/utils/model_utils.py`
(repository `Annotation-and-ChatBot-Training-`).

The Python source is shallowly embedded: JSON values appearing in entity
fields become the inductive `JVal`; Python's `int()` / `str()` coercions,
string slicing, `str.strip`, `str.replace`, `str.join` and list `sorted`
become executable Lean functions; filesystem effects of the Rasa trainer
become explicit state passing over a path-to-content map; code that can
raise becomes `Except String`.
-/

deriving instance DecidableEq for Except

/-- A JSON scalar value as it may appear in an entity field
(`start` / `end` / `label`) of an annotation record. -/
inductive JVal where
  | jnull : JVal
  | jbool (b : Bool) : JVal
  | jint (n : Int) : JVal
  | jstr (s : String) : JVal
deriving DecidableEq, Repr

/-- Python whitespace test used by `str.strip` (ASCII fragment). -/
def isPySpace (c : Char) : Bool :=
  c = ' ' || c = '\t' || c = '\n' || c = '\r' || c = '\x0b' || c = '\x0c'

/-- Python `str.strip()` on the character list: drop whitespace at both ends. -/
def pyStripList (l : List Char) : List Char :=
  ((l.dropWhile isPySpace).reverse.dropWhile isPySpace).reverse

/-- Python `str.strip()`. -/
def pyStrip (s : String) : String :=
  String.mk (pyStripList s.data)

/-- Digit-string parser backing `int(str)`: nonempty all-digit list. -/
def parseDigits (l : List Char) : Option Nat :=
  if l ≠ [] ∧ l.all Char.isDigit then
    some (l.foldl (fun a c => a * 10 + (c.toNat - 48)) 0)
  else none

/-- Python `int(<string>)`: optional sign then digits, surrounding whitespace
stripped (digit-group underscores are not modelled; no claim uses them). -/
def parseIntStr (l : List Char) : Option Int :=
  match pyStripList l with
  | '-' :: ds => (parseDigits ds).map (fun n => -(n : Int))
  | '+' :: ds => (parseDigits ds).map (fun n => (n : Int))
  | ds => (parseDigits ds).map (fun n => (n : Int))

/-- Python `int(v)` on a JSON scalar: identity on ints, 0/1 on booleans,
string parsing on strings; `TypeError` on `None`.  A raised exception is
an `Except.error`. -/
def pyInt (v : JVal) : Except String Int :=
  match v with
  | .jint n => .ok n
  | .jbool b => .ok (if b then 1 else 0)
  | .jstr s =>
      match parseIntStr s.data with
      | some n => .ok n
      | none => .error "int coercion failed"
  | .jnull => .error "int coercion failed"

/-- Python `str(v)` on a JSON scalar (total). -/
def pyStr (v : JVal) : String :=
  match v with
  | .jstr s => s
  | .jint n => toString n
  | .jbool b => if b then "True" else "False"
  | .jnull => "None"

/-- Normalise one Python slice index against a sequence of length `n`:
negative indices count from the end, and indices clamp to `[0, n]`. -/
def pySliceIdx (n : Nat) (i : Int) : Nat :=
  if i < 0 then (i + n).toNat else min i.toNat n

/-- Python `l[i:j]` on a character list. -/
def pySliceList (l : List Char) (i j : Int) : List Char :=
  (l.take (pySliceIdx l.length j)).drop (pySliceIdx l.length i)

/-- Python `s[i:j]`. -/
def pySlice (s : String) (i j : Int) : String :=
  String.mk (pySliceList s.data i j)

/-- Python `s[i:]`. -/
def pySliceFrom (s : String) (i : Int) : String :=
  String.mk (s.data.drop (pySliceIdx s.data.length i))

/-- Python `s[:n]` for a nonnegative literal bound (used for the
4000-character log snippets). -/
def pyTake (s : String) (n : Nat) : String :=
  String.mk (s.data.take n)

/-- Replacement `"\n" -> " "` on a character list, backing `str.replace("\n", " ")`
(the pattern is a single character, so replacement is a map). -/
def replNlList (l : List Char) : List Char :=
  l.map (fun c => if c = '\n' then ' ' else c)

/-- Python `s.replace("\n", " ")`. -/
def replaceNewlines (s : String) : String :=
  String.mk (replNlList s.data)

/-- Python `" ".join`-style joining, backing `" ".join(cmd)`. -/
def pyJoin (sep : String) : List String → String
  | [] => ""
  | [x] => x
  | x :: y :: xs => x ++ sep ++ pyJoin sep (y :: xs)

/-- Python `os.path.join` for the two-component uses in the source. -/
def pathJoin (a b : String) : String :=
  a ++ "/" ++ b

/-- One entity dict of an annotation record.  `none` in a field means the
key is absent from the dict (`dict.get` then yields the supplied default). -/
structure Entity where
  startJ : Option JVal
  endJ : Option JVal
  labelJ : Option JVal
deriving DecidableEq, Repr

/-- One annotation record: `{"text": ..., "intent": ..., "entities": [...]}`,
each key optional as in the source's `ann.get(...)` accesses. -/
structure Ann where
  textJ : Option String
  intentJ : Option String
  entitiesJ : Option (List Entity)
deriving DecidableEq, Repr

/-! ## spaCy conversion (`train_spacy_model`, lines 34-54)

```python
training_data = []
for ann in annotations:
    text = ann.get('text', '')
    ents = ann.get('entities', [])
    spacy_ents = []
    for e in ents:
        try:
            s = int(e.get('start'))
            en = int(e.get('end'))
            lab = str(e.get('label'))
            spacy_ents.append((s, en, lab))
        except Exception:
            continue
    if text:
        training_data.append((text, {'entities': spacy_ents}))
if not training_data:
    raise RuntimeError('No training data available in annotations.json')
```
-/

/-- Python `int(e.get('start'))`: missing key gives `None`, which `int` rejects. -/
def spacyStart (e : Entity) : Except String Int :=
  pyInt (e.startJ.getD .jnull)

/-- Python `int(e.get('end'))`. -/
def spacyEnd (e : Entity) : Except String Int :=
  pyInt (e.endJ.getD .jnull)

/-- Python `str(e.get('label'))` (total). -/
def spacyLabel (e : Entity) : String :=
  pyStr (e.labelJ.getD .jnull)

/-- The inner entity loop: each entity is coerced inside `try`; on failure
the single entity is skipped (`continue`). -/
def spacyEnts : List Entity → List (Int × Int × String)
  | [] => []
  | e :: rest =>
    match spacyStart e, spacyEnd e with
    | .ok s, .ok en => (s, en, spacyLabel e) :: spacyEnts rest
    | .error _, _ => spacyEnts rest
    | .ok _, .error _ => spacyEnts rest

/-- The outer record loop: a record is kept iff its `text` is truthy
(non-empty); its entity list is the filtered coercion of `entities`. -/
def spacyTrainingData : List Ann → List (String × List (Int × Int × String))
  | [] => []
  | ann :: rest =>
    let text := ann.textJ.getD ""
    let ents := ann.entitiesJ.getD []
    if text ≠ "" then (text, spacyEnts ents) :: spacyTrainingData rest
    else spacyTrainingData rest

/-- The data-preparation phase of `train_spacy_model`: conversion followed by
the empty-training-set check (raised before any pipeline is built). -/
def trainSpacyPrep (anns : List Ann) :
    Except String (List (String × List (Int × Int × String))) :=
  let td := spacyTrainingData anns
  if td.isEmpty then .error "No training data available in annotations.json"
  else .ok td

/-! ## Rasa conversion (`annotations_to_rasa_nlu`, lines 112-144)

```python
intents_map = {}
for ann in annotations:
    text = ann.get("text", "").strip()
    if not text:
        continue
    intent = ann.get("intent", "unknown_intent")
    entities = ann.get("entities", [])
    if not entities:
        example = text
    else:
        spans_sorted = sorted(entities, key=lambda e: int(e.get("start", 0)))
        marked = ""
        last = 0
        for sp in spans_sorted:
            s = int(sp.get("start", 0))
            e = int(sp.get("end", 0))
            label = sp.get("label", "entity")
            marked += text[last:s]
            entity_text = text[s:e].replace("\n", " ")
            marked += f"[{entity_text}]({label})"
            last = e
        marked += text[last:]
        example = marked
    intents_map.setdefault(intent, []).append(example)
```
-/

/-- Python `int(sp.get("start", 0))` in the Rasa converter (key default `0`). -/
def rasaStart (sp : Entity) : Except String Int :=
  pyInt (sp.startJ.getD (.jint 0))

/-- Python `int(sp.get("end", 0))`. -/
def rasaEnd (sp : Entity) : Except String Int :=
  pyInt (sp.endJ.getD (.jint 0))

/-- Python `sp.get("label", "entity")` as it is interpolated into the f-string. -/
def rasaLabel (sp : Entity) : String :=
  pyStr (sp.labelJ.getD (.jstr "entity"))

/-- Total sort key standing for `lambda e: int(e.get("start", 0))`; the
junk value 0 is only reachable when the coercion fails, a case the
converter turns into an error before the key is ever consumed. -/
def rasaStartKey (sp : Entity) : Int :=
  match rasaStart sp with
  | .ok n => n
  | .error _ => 0

/-- Total counterpart of `rasaEnd`, for describing outputs. -/
def rasaEndKey (sp : Entity) : Int :=
  match rasaEnd sp with
  | .ok n => n
  | .error _ => 0

/-- The sort-key relation of `sorted(entities, key=lambda e: int(e.get("start", 0)))`. -/
def startLe (a b : Entity) : Prop :=
  rasaStartKey a ≤ rasaStartKey b

instance : DecidableRel startLe :=
  fun a b => inferInstanceAs (Decidable (rasaStartKey a ≤ rasaStartKey b))

instance : IsTotal Entity startLe :=
  ⟨fun a b => Int.le_total (rasaStartKey a) (rasaStartKey b)⟩

instance : IsTrans Entity startLe :=
  ⟨fun _ _ _ h₁ h₂ => Int.le_trans h₁ h₂⟩

/-- Python `sorted` is a stable sort by the key; `List.insertionSort` with
the key relation is exactly such a stable sort. -/
def sortByStart (l : List Entity) : List Entity :=
  l.insertionSort startLe

/-- Python `sorted` evaluates the key (`int(e.get("start", 0))`) on every element;
a coercion failure there raises out of the converter. -/
def startsOK (l : List Entity) : Bool :=
  l.all (fun sp => (rasaStart sp).toBool)

/-- The marked-text loop of the Rasa converter, over the sorted spans,
carrying `last` and the accumulator `marked`; the trailing
`marked += text[last:]` is fused into the base case. -/
def rasaLoop (text : String) : List Entity → Int → String → Except String String
  | [], last, marked => .ok (marked ++ pySliceFrom text last)
  | sp :: rest, last, marked =>
    match rasaStart sp, rasaEnd sp with
    | .ok s, .ok e =>
      rasaLoop text rest e
        ((marked ++ pySlice text last s) ++
          ("[" ++ replaceNewlines (pySlice text s e) ++ "](" ++ rasaLabel sp ++ ")"))
    | .error msg, _ => .error msg
    | .ok _, .error msg => .error msg

/-- One iteration of the record loop of `annotations_to_rasa_nlu`:
`none` means the record is skipped (`continue` on blank text); otherwise
the `(intent, example)` pair appended to `intents_map`. -/
def rasaExample (ann : Ann) : Except String (Option (String × String)) :=
  let text := pyStrip (ann.textJ.getD "")
  if text = "" then .ok none
  else
    let intent := ann.intentJ.getD "unknown_intent"
    let entities := ann.entitiesJ.getD []
    if entities.isEmpty then .ok (some (intent, text))
    else
      if startsOK entities then
        match rasaLoop text (sortByStart entities) 0 "" with
        | .ok marked => .ok (some (intent, marked))
        | .error msg => .error msg
      else .error "int coercion failed"

/-- Python `intents_map.setdefault(intent, []).append(example)` on an
insertion-ordered association list (Python dicts preserve insertion order). -/
def addExample (m : List (String × List String)) (intent ex : String) :
    List (String × List String) :=
  match m with
  | [] => [(intent, [ex])]
  | (k, v) :: rest =>
    if k = intent then (k, v ++ [ex]) :: rest
    else (k, v) :: addExample rest intent ex

/-- The record loop building `intents_map`, left to right with the map as
accumulator. -/
def buildIntentsMapGo (m : List (String × List String)) :
    List Ann → Except String (List (String × List String))
  | [] => .ok m
  | ann :: rest =>
    match rasaExample ann with
    | .error msg => .error msg
    | .ok none => buildIntentsMapGo m rest
    | .ok (some (intent, ex)) =>
      buildIntentsMapGo (addExample m intent ex) rest

/-- The `intents_map` value after the full record loop. -/
def buildIntentsMap (anns : List Ann) :
    Except String (List (String × List String)) :=
  buildIntentsMapGo [] anns

/-! ## Filesystem model for the Rasa trainer adapter (`train_rasa_model`)

The filesystem slice the adapter touches is a map from paths to file
contents.  `json.dump` of the metadata dict is modelled by an injective
constructor carrying the structured record. -/

/-- The flattened metadata dict written to `metadata.json` (lines 266-273);
the nested `info` sub-dict is inlined as its three fields. -/
structure RasaMetadata where
  name : String
  trained_at : Nat
  version : String
  file : String
  original_model_path : String
  training_log : String
  rasa_stdout_snippet : String
  rasa_stderr_snippet : String
deriving DecidableEq, Repr

/-- Content of a file in the model: plain text, or the serialized metadata
record. -/
inductive FileContent where
  | text (s : String) : FileContent
  | json (m : RasaMetadata) : FileContent
deriving DecidableEq, Repr

/-- The filesystem slice: path to content. -/
def FS : Type := String → Option FileContent

/-- Python `open(p, "w").write(c)`. -/
def fsWrite (fs : FS) (p : String) (c : FileContent) : FS :=
  fun q => if q = p then some c else fs q

/-- Python `shutil.copy2(src, dst)` for an existing source. -/
def fsCopy (fs : FS) (src dst : String) : FS :=
  fun q => if q = dst then fs src else fs q

/-- Lines 209-221 of `train_rasa_model`: the converter writes the freshly
dumped YAML to `<project>/data/nlu.yml` (line 147 of
`annotations_to_rasa_nlu`), and only then is the file at that path copied
to the timestamp-suffixed backup name (guarded by `os.path.exists`, the
copy's failure swallowed). -/
def nluWriteBackup (fs : FS) (rasaProjectPath yamlText : String) (ts : Nat) : FS :=
  let nluFile := pathJoin (pathJoin rasaProjectPath "data") "nlu.yml"
  let fs₁ := fsWrite fs nluFile (.text yamlText)
  let backup := nluFile ++ ".bak_" ++ toString ts
  if (fs₁ nluFile).isSome then fsCopy fs₁ nluFile backup else fs₁

/-- Captured result of `subprocess.run(..., capture_output=True, text=True)`
with the `or ""` normalisation already applied to the streams. -/
structure ProcResult where
  returncode : Int
  stdout : String
  stderr : String
deriving DecidableEq, Repr

/-- The log text written at lines 236-242. -/
def trainingLogContent (cmd : List String) (cwd stdout stderr : String) : String :=
  "CMD: " ++ pyJoin " " cmd ++ "\n\n" ++
    ("CWD: " ++ cwd ++ "\n\n") ++
    "=== STDOUT ===\n" ++ (stdout ++ "\n\n") ++
    "=== STDERR ===\n" ++ (stderr ++ "\n")

/-- Python `glob(os.path.join(models_dir, "*.tar.gz"))` membership test on a
directory-entry name: `*` does not match a leading dot and the rest of the
pattern is the literal suffix. -/
def globTarGz (name : String) : Bool :=
  (match name.data with
   | '.' :: _ => false
   | _ => true) &&
  ".tar.gz".data.isSuffixOf name.data

/-- Key relation of `sorted(gz, key=os.path.getmtime, reverse=True)`:
descending modification time, stable among equal keys. -/
def mtimeGe (a b : String × Nat) : Prop :=
  b.2 ≤ a.2

instance : DecidableRel mtimeGe :=
  fun a b => inferInstanceAs (Decidable (b.2 ≤ a.2))

instance : IsTotal (String × Nat) mtimeGe :=
  ⟨fun a b => Nat.le_total b.2 a.2⟩

instance : IsTrans (String × Nat) mtimeGe :=
  ⟨fun _ _ _ h₁ h₂ => Nat.le_trans h₂ h₁⟩

/-- Stable descending-mtime sort of directory entries `(name, mtime)`. -/
def sortByMtimeDesc (l : List (String × Nat)) : List (String × Nat) :=
  l.insertionSort mtimeGe

/-- Function `find_latest_rasa_model` (lines 173-178): `none` for the listing means
`models/` is not a directory; otherwise the `*.tar.gz` entries are sorted
by modification time descending and the first full path is returned. -/
def findLatestRasaModel (rasaProjectPath : String)
    (listing : Option (List (String × Nat))) : Option String :=
  match listing with
  | none => none
  | some entries =>
    let gz := entries.filter (fun p => globTarGz p.1)
    match sortByMtimeDesc gz with
    | [] => none
    | p :: _ => some (pathJoin (pathJoin rasaProjectPath "models") p.1)

/-- Lines 233-278 of `train_rasa_model`, from the point where the
subprocess has returned: write the log file; on non-zero exit raise the
runtime error quoting the log path and the truncated streams; on zero exit
locate the newest archive (raising if none), copy it to the local
timestamped destination, write the metadata sidecar, and return the
destination path.  `listing` is the external project's `models/` directory
(`none` when absent). -/
def trainRasaFinish (fs : FS) (listing : Option (List (String × Nat)))
    (destModelsDir rasaProjectPath : String) (cmd : List String) (ts : Nat)
    (proc : ProcResult) : FS × Except String String :=
  let logFile := pathJoin destModelsDir ("training_log_" ++ toString ts ++ ".txt")
  let fs₁ := fsWrite fs logFile
    (.text (trainingLogContent cmd rasaProjectPath proc.stdout proc.stderr))
  if proc.returncode ≠ 0 then
    (fs₁, .error ("Rasa training failed. See training log: " ++ logFile ++
      "\n\nSTDERR:\n" ++ pyTake proc.stderr 4000 ++
      "\n\nSTDOUT:\n" ++ pyTake proc.stdout 4000))
  else
    match findLatestRasaModel rasaProjectPath listing with
    | none =>
      (fs₁, .error ("Rasa trained but no model file found in rasa_project/models. See log: "
        ++ logFile))
    | some latest =>
      let destName := "model_v" ++ toString ts ++ ".tar.gz"
      let destPath := pathJoin destModelsDir destName
      let fs₂ := fsCopy fs₁ latest destPath
      let meta : RasaMetadata :=
        { name := "rasa_model", trained_at := ts, version := "v" ++ toString ts,
          file := destName, original_model_path := latest,
          training_log := logFile,
          rasa_stdout_snippet := pyTake proc.stdout 4000,
          rasa_stderr_snippet := pyTake proc.stderr 4000 }
      let fs₃ := fsWrite fs₂ (pathJoin destModelsDir "metadata.json") (.json meta)
      (fs₃, .ok destPath)

/-! ## Re-extraction of `[span-text](label)` groups

Modelled from the spec: the round-trip property re-extracts every
`[span-text](label)` bracketed group from the emitted markup, i.e. scans
for `[`, takes the span text up to the first `]`, requires an immediately
following `(`, and takes the label up to the first `)`. -/

/-- Split at the first occurrence of `c`: `some (before, after)`, the
separator consumed. -/
def splitAtChar (c : Char) : List Char → Option (List Char × List Char)
  | [] => none
  | x :: xs =>
    if x = c then some ([], xs)
    else (splitAtChar c xs).map (fun p => (x :: p.1, p.2))

/-- Parse one `span-text](label)` group body (the part after an opening
`[`): span text up to `]`, an immediate `(`, label up to `)`. -/
def parseGroup (l : List Char) : Option ((List Char × List Char) × List Char) :=
  match splitAtChar ']' l with
  | none => none
  | some (t, r) =>
    match r with
    | [] => none
    | c :: r₂ =>
      if c = '(' then
        match splitAtChar ')' r₂ with
        | none => none
        | some (lbl, r₃) => some ((t, lbl), r₃)
      else none

/-- Fuelled scanner collecting all bracketed groups left to right. -/
def extractGroupsF : Nat → List Char → List (List Char × List Char)
  | 0, _ => []
  | _ + 1, [] => []
  | fuel + 1, c :: rest =>
    if c = '[' then
      match parseGroup rest with
      | some (g, r) => g :: extractGroupsF fuel r
      | none => extractGroupsF fuel rest
    else extractGroupsF fuel rest

/-- All `[span-text](label)` groups of a character list, in order. -/
def extractGroups (l : List Char) : List (List Char × List Char) :=
  extractGroupsF l.length l

/-! ## Descriptions used to state the round-trip and newline properties -/

/-- No `[`, `]`, `(`, `)` characters. -/
def bracketFreeL (l : List Char) : Bool :=
  l.all (fun c => !(c = '[' || c = ']' || c = '(' || c = ')'))

/-- The claim hypothesis for the round trip: spans are listed in ascending
start order, pairwise non-overlapping, and each satisfies
`last <= start <= end <= n` with coercible offsets, threading the previous
span's end as the next lower bound. -/
def chainOK (n : Nat) : Int → List Entity → Bool
  | _, [] => true
  | last, sp :: rest =>
    match rasaStart sp, rasaEnd sp with
    | .ok s, .ok e =>
      decide (last ≤ s) && decide (s ≤ e) && decide (e ≤ (n : Int)) && chainOK n e rest
    | _, _ => false

/-- Entities with their coerced offsets and stringified labels. -/
def resolveSpans (l : List Entity) : List (Int × Int × List Char) :=
  l.map (fun sp => (rasaStartKey sp, rasaEndKey sp, (rasaLabel sp).data))

/-- The character-level shape of the marked example emitted by the span
loop: untouched slices between spans, each span's slice newline-replaced
and wrapped as `[span-text](label)`. -/
def rasaInterleaveData (t : List Char) : List (Int × Int × List Char) → Int → List Char
  | [], last => t.drop (pySliceIdx t.length last)
  | (s, e, lbl) :: rest, last =>
    pySliceList t last s ++
      '[' :: (replNlList (pySliceList t s e) ++
        ']' :: '(' :: (lbl ++ ')' :: rasaInterleaveData t rest e))

/-- A one-file filesystem holding a prior `nlu.yml` with content `"OLD"`,
for exercising the backup path of the Rasa adapter. -/
def priorFS : FS :=
  fun q =>
    if q = pathJoin (pathJoin "proj" "data") "nlu.yml" then some (.text "OLD")
    else none

/-! ## General helper lemmas -/

theorem spacyEnts_cons_bad {e : Entity} (l : List Entity)
    (h : (spacyStart e).isOk = false ∨ (spacyEnd e).isOk = false) :
    spacyEnts (e :: l) = spacyEnts l := by
  rcases hs : spacyStart e with m | s <;> rcases he : spacyEnd e with m' | en <;>
    simp [spacyEnts, hs, he] <;> simp [hs, he, Except.isOk, Except.toBool] at h

theorem spacyEnts_append (l₁ l₂ : List Entity) :
    spacyEnts (l₁ ++ l₂) = spacyEnts l₁ ++ spacyEnts l₂ := by
  induction l₁ with
  | nil => simp [spacyEnts]
  | cons e t ih =>
    simp only [List.cons_append, spacyEnts]
    rcases spacyStart e with m | s <;> rcases spacyEnd e with m' | en <;> simp [ih]

theorem spacyTrainingData_append (l₁ l₂ : List Ann) :
    spacyTrainingData (l₁ ++ l₂) = spacyTrainingData l₁ ++ spacyTrainingData l₂ := by
  induction l₁ with
  | nil => simp [spacyTrainingData]
  | cons a t ih =>
    simp only [List.cons_append, spacyTrainingData]
    by_cases h : a.textJ.getD "" ≠ "" <;> simp [h, ih]

/-! ## C4 -/

/-- C4: for every annotation record processed by the spaCy conversion, an
entity whose `start` or `end` fails integer coercion is excluded from that
record's output entity list, while the record itself (with its remaining
coercible entities) stays in the output whenever its text is non-empty. -/
theorem c4_bad_entity_dropped_record_kept
    (pre post : List Ann) (textO : Option String) (intentO : Option String)
    (l₁ l₂ : List Entity) (e : Entity)
    (hbad : (spacyStart e).isOk = false ∨ (spacyEnd e).isOk = false)
    (htext : textO.getD "" ≠ "") :
    spacyTrainingData (pre ++ ⟨textO, intentO, some (l₁ ++ e :: l₂)⟩ :: post)
      = spacyTrainingData pre ++
          (textO.getD "", spacyEnts (l₁ ++ l₂)) :: spacyTrainingData post := by
  rw [spacyTrainingData_append]
  have hents : spacyEnts (l₁ ++ e :: l₂) = spacyEnts (l₁ ++ l₂) := by
    rw [spacyEnts_append, spacyEnts_append, spacyEnts_cons_bad l₂ hbad]
  simp [spacyTrainingData, htext, hents]

/-- Witness for C4 at a concrete record: a `start` that is a non-numeric
string fails coercion, the entity is dropped, the record is kept. -/
theorem c4_bad_entity_dropped_record_kept_w :
    spacyTrainingData [⟨some "hi", none,
        some [⟨some (.jstr "abc"), some (.jint 2), some (.jstr "x")⟩]⟩]
      = [("hi", [])] := by
  have h := c4_bad_entity_dropped_record_kept [] [] (some "hi") none [] []
    ⟨some (.jstr "abc"), some (.jint 2), some (.jstr "x")⟩
    (Or.inl (by decide)) (by decide)
  simpa [spacyTrainingData, spacyEnts] using h

/-! ## C5 -/

/-- C5: the spaCy adapter raises its empty-training-set failure if and only
if the conversion yields an empty training set, and on the empty annotation
list it always produces that failure (in the model the check sits before
any pipeline construction, as in the source). -/
theorem c5_empty_training_set :
    (∀ anns : List Ann,
        (trainSpacyPrep anns).isOk = false ↔ spacyTrainingData anns = []) ∧
      trainSpacyPrep [] = .error "No training data available in annotations.json" := by
  constructor
  · intro anns
    unfold trainSpacyPrep
    rcases h : spacyTrainingData anns with _ | ⟨a, l⟩ <;>
      simp [h, Except.isOk, Except.toBool, List.isEmpty]
  · rfl

/-- Witness for C5: a nonempty conversion means no failure; the empty list
fails. -/
theorem c5_empty_training_set_w :
    (trainSpacyPrep [⟨some "hi", none, some []⟩]).isOk = true ∧
      (trainSpacyPrep []).isOk = false := by
  constructor
  · have h := (c5_empty_training_set.1 [⟨some "hi", none, some []⟩]).not
    simp only [Bool.not_eq_false] at h
    exact h.mpr (by decide)
  · exact (c5_empty_training_set.1 []).mpr (by decide)

/-! ## C1 -/

/-- C1 counterexample: with a prior `nlu.yml` holding `"OLD"`, running the
write-then-backup sequence of `train_rasa_model` with new content `"NEW"`
leaves the timestamp-suffixed backup holding the newly written `"NEW"`,
not the pre-run `"OLD"`: the source writes the converted YAML (line 211)
before taking the backup copy (lines 214-221). -/
theorem c1_backup_holds_new_content :
    priorFS (pathJoin (pathJoin "proj" "data") "nlu.yml") = some (.text "OLD") ∧
      nluWriteBackup priorFS "proj" "NEW" 7
          (pathJoin (pathJoin "proj" "data") "nlu.yml" ++ ".bak_" ++ toString 7)
        = some (.text "NEW") ∧
      nluWriteBackup priorFS "proj" "NEW" 7
          (pathJoin (pathJoin "proj" "data") "nlu.yml" ++ ".bak_" ++ toString 7)
        ≠ some (.text "OLD") := by
  refine ⟨by decide, ?_, ?_⟩ <;> decide

/-- C1 amended: when a prior `nlu.yml` exists, a timestamp-suffixed backup
is created, but only after the converter has overwritten the file, so both
the file and its backup hold the newly converted YAML content. -/
theorem c1_backup_after_overwrite (fs : FS) (project yaml : String) (ts : Nat)
    (old : FileContent)
    (hprior : fs (pathJoin (pathJoin project "data") "nlu.yml") = some old) :
    nluWriteBackup fs project yaml ts
        (pathJoin (pathJoin project "data") "nlu.yml" ++ ".bak_" ++ toString ts)
      = some (.text yaml) ∧
    nluWriteBackup fs project yaml ts (pathJoin (pathJoin project "data") "nlu.yml")
      = some (.text yaml) := by
  unfold nluWriteBackup fsWrite fsCopy
  simp

/-- Witness for C1 amended at the concrete one-file filesystem. -/
theorem c1_backup_after_overwrite_w :
    nluWriteBackup priorFS "proj" "NEW" 7
        (pathJoin (pathJoin "proj" "data") "nlu.yml" ++ ".bak_" ++ toString 7)
      = some (.text "NEW") ∧
    nluWriteBackup priorFS "proj" "NEW" 7 (pathJoin (pathJoin "proj" "data") "nlu.yml")
      = some (.text "NEW") :=
  c1_backup_after_overwrite priorFS "proj" "NEW" 7 (.text "OLD") (by decide)

/-! ## C2 -/

theorem rasaLoop_isOk (text : String) (spans : List Entity) :
    ∀ (last : Int) (marked : String),
      (∀ sp ∈ spans, (rasaStart sp).isOk = true ∧ (rasaEnd sp).isOk = true) →
      (rasaLoop text spans last marked).isOk = true := by
  induction spans with
  | nil => intro last marked _; rfl
  | cons sp rest ih =>
    intro last marked h
    obtain ⟨⟨hs, he⟩, hrest⟩ := List.forall_mem_cons.mp h
    rcases hs' : rasaStart sp with m | s
    · rw [hs'] at hs; simp [Except.isOk, Except.toBool] at hs
    · rcases he' : rasaEnd sp with m | e
      · rw [he'] at he; simp [Except.isOk, Except.toBool] at he
      · simp only [rasaLoop, hs', he']
        exact ih e _ hrest

theorem rasaLoop_isError_of_bad_end (text : String) :
    ∀ (spans : List Entity) (last : Int) (marked : String),
      (∀ sp ∈ spans, (rasaStart sp).isOk = true) →
      (∃ sp ∈ spans, (rasaEnd sp).isOk = false) →
      (rasaLoop text spans last marked).isOk = false := by
  intro spans
  induction spans with
  | nil =>
    intro last marked _ hw
    obtain ⟨w, hw', _⟩ := hw
    cases hw'
  | cons sp rest ih =>
    intro last marked hs hw
    have hsok := hs sp (List.mem_cons_self sp rest)
    rcases hv : rasaStart sp with m | v
    · rw [hv] at hsok
      simp [Except.isOk, Except.toBool] at hsok
    · rcases he : rasaEnd sp with m | e
      · simp only [rasaLoop, hv, he]
        rfl
      · obtain ⟨w, hw', hbad⟩ := hw
        rcases List.mem_cons.mp hw' with hww | hww
        · subst hww
          rw [he] at hbad
          simp [Except.isOk, Except.toBool] at hbad
        · simp only [rasaLoop, hv, he]
          exact ih e _ (fun x hx => hs x (List.mem_cons_of_mem sp hx)) ⟨w, hww, hbad⟩

/-- C2 counterexample: an annotation record whose entity has a `start` that
fails integer coercion makes the Rasa YAML conversion raise (the converter
has no exception handling around `int(...)`), contradicting the claim that
no exception is raised by either conversion on such input. -/
theorem c2_rasa_raises_on_bad_coercion :
    (rasaStart ⟨some (.jstr "abc"), some (.jint 2), some (.jstr "x")⟩).isOk = false ∧
      (rasaExample ⟨some "hello", none,
          some [⟨some (.jstr "abc"), some (.jint 2), some (.jstr "x")⟩]⟩).isOk = false ∧
      (buildIntentsMap [⟨some "hello", none,
          some [⟨some (.jstr "abc"), some (.jint 2), some (.jstr "x")⟩]⟩]).isOk = false := by
  refine ⟨?_, ?_, ?_⟩ <;> decide

/-- C2 amended: the invariant `0 <= start <= end <= len(text)` is not
enforced anywhere. (i) With every entity coercible the Rasa conversion
never raises, whatever the offset values (Python slicing clamps); (ii) the
spaCy conversion keeps any coercible entity, span validity never checked;
(iii) but an entity whose `start` or `end` fails integer coercion makes
the Rasa conversion raise, while (iv) the spaCy conversion silently skips
exactly that entity. -/
theorem c2_invariant_unenforced :
    (∀ (textO intentO : Option String) (ents : List Entity),
        (∀ sp ∈ ents, (rasaStart sp).isOk = true ∧ (rasaEnd sp).isOk = true) →
        (rasaExample ⟨textO, intentO, some ents⟩).isOk = true) ∧
    (∀ (e : Entity) (rest : List Entity) (s en : Int),
        spacyStart e = .ok s → spacyEnd e = .ok en →
        spacyEnts (e :: rest) = (s, en, spacyLabel e) :: spacyEnts rest) ∧
    (∀ (textO intentO : Option String) (ents : List Entity) (sp : Entity),
        sp ∈ ents →
        (rasaStart sp).isOk = false ∨ (rasaEnd sp).isOk = false →
        pyStrip (textO.getD "") ≠ "" →
        (rasaExample ⟨textO, intentO, some ents⟩).isOk = false) ∧
    (∀ (l₁ l₂ : List Entity) (e : Entity),
        (spacyStart e).isOk = false ∨ (spacyEnd e).isOk = false →
        spacyEnts (l₁ ++ e :: l₂) = spacyEnts (l₁ ++ l₂)) := by
  refine ⟨?_, ?_, ?_, ?_⟩
  · intro textO intentO ents h
    unfold rasaExample
    by_cases ht : pyStrip (textO.getD "") = ""
    · simp [ht, Except.isOk, Except.toBool]
    · have hall : startsOK ents = true := by
        unfold startsOK
        rw [List.all_eq_true]
        intro sp hsp
        exact (h sp hsp).1
      by_cases he : ents = []
      · simp [ht, he, Except.isOk, Except.toBool]
      · have hloop := rasaLoop_isOk (pyStrip (textO.getD "")) (sortByStart ents) 0 ""
          (fun sp hsp => h sp ((List.mem_insertionSort startLe).mp hsp))
        rcases hl : rasaLoop (pyStrip (textO.getD "")) (sortByStart ents) 0 "" with m | mk
        · rw [hl] at hloop; simp [Except.isOk, Except.toBool] at hloop
        · simp [ht, he, hall, hl, Except.isOk, Except.toBool]
  · intro e rest s en hs he
    simp [spacyEnts, hs, he]
  · intro textO intentO ents sp hsp hbad ht
    have hne : ents.isEmpty = false := by
      cases ents with
      | nil => cases hsp
      | cons a t => rfl
    by_cases hall : startsOK ents = true
    · have hsok : (rasaStart sp).isOk = true := List.all_eq_true.mp hall sp hsp
      have hebad : (rasaEnd sp).isOk = false := by
        rcases hbad with h | h
        · rw [h] at hsok
          cases hsok
        · exact h
      have hsall : ∀ x ∈ sortByStart ents, (rasaStart x).isOk = true := fun x hx =>
        List.all_eq_true.mp hall x ((List.mem_insertionSort startLe).mp hx)
      have hloop := rasaLoop_isError_of_bad_end (pyStrip (textO.getD ""))
        (sortByStart ents) 0 "" hsall
        ⟨sp, (List.mem_insertionSort startLe).mpr hsp, hebad⟩
      unfold rasaExample
      rcases hl : rasaLoop (pyStrip (textO.getD "")) (sortByStart ents) 0 "" with m | mk
      · simp [ht, hne, hall, hl, Except.isOk, Except.toBool]
      · rw [hl] at hloop
        simp [Except.isOk, Except.toBool] at hloop
    · rw [Bool.not_eq_true] at hall
      unfold rasaExample
      simp [ht, hne, hall, Except.isOk, Except.toBool]
  · intro l₁ l₂ e hbad
    rw [spacyEnts_append, spacyEnts_append, spacyEnts_cons_bad l₂ hbad]

/-- Witness for C2 amended: (i) a record whose span exceeds the text
length converts fine; (ii) the out-of-range entity is kept by the spaCy
conversion; (iii) a start-coercion failure and an end-coercion failure
each make the Rasa conversion error; (iv) the spaCy conversion skips the
failing entity while keeping its neighbours. -/
theorem c2_invariant_unenforced_w :
    (rasaExample ⟨some "ab", none,
        some [⟨some (.jint 5), some (.jint 99), some (.jstr "L")⟩]⟩).isOk = true ∧
    spacyEnts [⟨some (.jint 5), some (.jint 99), some (.jstr "L")⟩] = [(5, 99, "L")] ∧
    (rasaExample ⟨some "ab", none,
        some [⟨some .jnull, some (.jint 2), some (.jstr "L")⟩]⟩).isOk = false ∧
    (rasaExample ⟨some "ab", none,
        some [⟨some (.jint 0), some (.jstr "abc"), some (.jstr "L")⟩]⟩).isOk = false ∧
    spacyEnts ([⟨some (.jint 0), some (.jint 1), some (.jstr "A")⟩] ++
        ⟨some (.jstr "abc"), some (.jint 2), some (.jstr "B")⟩ ::
          [⟨some (.jint 1), some (.jint 2), some (.jstr "C")⟩])
      = spacyEnts ([⟨some (.jint 0), some (.jint 1), some (.jstr "A")⟩] ++
          [⟨some (.jint 1), some (.jint 2), some (.jstr "C")⟩]) := by
  refine ⟨?_, ?_, ?_, ?_, ?_⟩
  · exact c2_invariant_unenforced.1 (some "ab") none _ (by decide)
  · have h := c2_invariant_unenforced.2.1 ⟨some (.jint 5), some (.jint 99), some (.jstr "L")⟩
      [] 5 99 rfl rfl
    simpa [spacyEnts, spacyLabel] using h
  · exact c2_invariant_unenforced.2.2.1 (some "ab") none _
      ⟨some .jnull, some (.jint 2), some (.jstr "L")⟩ (by decide) (Or.inl (by decide))
      (by decide)
  · exact c2_invariant_unenforced.2.2.1 (some "ab") none _
      ⟨some (.jint 0), some (.jstr "abc"), some (.jstr "L")⟩ (by decide) (Or.inr (by decide))
      (by decide)
  · exact c2_invariant_unenforced.2.2.2
      [⟨some (.jint 0), some (.jint 1), some (.jstr "A")⟩]
      [⟨some (.jint 1), some (.jint 2), some (.jstr "C")⟩]
      ⟨some (.jstr "abc"), some (.jint 2), some (.jstr "B")⟩ (Or.inl (by decide))

/-! ## C9 -/

theorem rasaExample_intent {ann : Ann} {intent ex : String}
    (h : rasaExample ann = .ok (some (intent, ex))) :
    intent = ann.intentJ.getD "unknown_intent" := by
  unfold rasaExample at h
  by_cases ht : pyStrip (ann.textJ.getD "") = ""
  · simp [ht] at h
  · by_cases he : ann.entitiesJ.getD [] = []
    · simp [ht, he] at h
      exact h.1.symm
    · simp only [ht, if_false, he, List.isEmpty_eq_true] at h
      by_cases hall : startsOK (ann.entitiesJ.getD []) = true
      · simp only [hall, if_true] at h
        rcases hl : rasaLoop (pyStrip (ann.textJ.getD ""))
            (sortByStart (ann.entitiesJ.getD [])) 0 "" with m | mk <;>
          rw [hl] at h <;> simp at h
        exact h.1.symm
      · simp [hall] at h

/-- C9: the concrete booking record converts to the example
`book a flight to [paris](city)` grouped under `book_flight`; and any
record whose intent key is absent has its example grouped under
`unknown_intent`. -/
theorem c9_example_and_intent_grouping :
    buildIntentsMap [⟨some "book a flight to paris", some "book_flight",
        some [⟨some (.jint 17), some (.jint 22), some (.jstr "city")⟩]⟩]
      = .ok [("book_flight", ["book a flight to [paris](city)"])] ∧
    (∀ (ann : Ann) (intent ex : String),
        ann.intentJ = none →
        rasaExample ann = .ok (some (intent, ex)) →
        intent = "unknown_intent" ∧
          buildIntentsMap [ann] = .ok [("unknown_intent", [ex])]) := by
  constructor
  · decide
  · intro ann intent ex hnone h
    have hint : intent = "unknown_intent" := by
      have := rasaExample_intent h
      rwa [hnone] at this
    refine ⟨hint, ?_⟩
    rw [hint] at h
    unfold buildIntentsMap buildIntentsMapGo
    rw [h]
    rfl

/-- Witness for C9's universally quantified part at a concrete record with
no intent key. -/
theorem c9_example_and_intent_grouping_w :
    ("unknown_intent" : String) = "unknown_intent" ∧
      buildIntentsMap [⟨some "hello there", none, some []⟩]
        = .ok [("unknown_intent", ["hello there"])] :=
  c9_example_and_intent_grouping.2 ⟨some "hello there", none, some []⟩
    "unknown_intent" "hello there" rfl (by decide)

/-! ## C6 -/

theorem pathJoin_ne_of_take {x y : String} (d : String) (k : Nat)
    (h : x.data.take k ≠ y.data.take k) : pathJoin d x ≠ pathJoin d y := by
  intro he
  apply h
  have hd := congrArg String.data he
  simp only [pathJoin, String.data_append] at hd
  rw [List.append_cancel_left hd]

/-- C6: on every run the timestamped log file is written with the invoked
command, the working directory and both captured streams (even when a
stream is empty); a non-zero exit yields a failure whose message contains
the log file path and embeds the at-most-4000-character head of each
captured stream. -/
theorem c6_nonzero_exit_failure (fs : FS) (listing : Option (List (String × Nat)))
    (destModelsDir rasaProjectPath : String) (cmd : List String) (ts : Nat)
    (proc : ProcResult) :
    ((trainRasaFinish fs listing destModelsDir rasaProjectPath cmd ts proc).1
        (pathJoin destModelsDir ("training_log_" ++ toString ts ++ ".txt"))
      = some (.text ("CMD: " ++ pyJoin " " cmd ++ "\n\n" ++
          ("CWD: " ++ rasaProjectPath ++ "\n\n") ++
          "=== STDOUT ===\n" ++ (proc.stdout ++ "\n\n") ++
          "=== STDERR ===\n" ++ (proc.stderr ++ "\n")))) ∧
    (proc.returncode ≠ 0 →
      (trainRasaFinish fs listing destModelsDir rasaProjectPath cmd ts proc).2
        = .error ("Rasa training failed. See training log: " ++
            pathJoin destModelsDir ("training_log_" ++ toString ts ++ ".txt") ++
            "\n\nSTDERR:\n" ++ pyTake proc.stderr 4000 ++
            "\n\nSTDOUT:\n" ++ pyTake proc.stdout 4000)) ∧
    (pyTake proc.stdout 4000).length ≤ 4000 ∧
    (pyTake proc.stderr 4000).length ≤ 4000 ∧
    (pyTake proc.stdout 4000).data ++ proc.stdout.data.drop 4000 = proc.stdout.data ∧
    (pyTake proc.stderr 4000).data ++ proc.stderr.data.drop 4000 = proc.stderr.data := by
  have hlogdest : pathJoin destModelsDir ("training_log_" ++ toString ts ++ ".txt")
      ≠ pathJoin destModelsDir ("model_v" ++ toString ts ++ ".tar.gz") :=
    pathJoin_ne_of_take destModelsDir 1
      (fun h => by cases (show (['t'] : List Char) = ['m'] from h))
  have hlogmeta : pathJoin destModelsDir ("training_log_" ++ toString ts ++ ".txt")
      ≠ pathJoin destModelsDir "metadata.json" :=
    pathJoin_ne_of_take destModelsDir 1
      (fun h => by cases (show (['t'] : List Char) = ['m'] from h))
  refine ⟨?_, ?_, ?_, ?_, ?_, ?_⟩
  · unfold trainRasaFinish
    by_cases hrc : proc.returncode ≠ 0
    · simp [hrc, fsWrite, trainingLogContent]
    · simp only [hrc, if_false]
      rcases hfind : findLatestRasaModel rasaProjectPath listing with _ | latest
    
      · simp [hfind, fsWrite, trainingLogContent]
      · simp [hfind, fsWrite, fsCopy, trainingLogContent, hlogdest, hlogmeta]
  · intro hrc
    unfold trainRasaFinish
    simp [hrc]
  · show (proc.stdout.data.take 4000).length ≤ 4000
    rw [List.length_take]
    omega
  · show (proc.stderr.data.take 4000).length ≤ 4000
    rw [List.length_take]
    omega
  · exact List.take_append_drop 4000 proc.stdout.data
  · exact List.take_append_drop 4000 proc.stderr.data

/-- Witness for C6 at a concrete failed run with an empty stderr stream. -/
theorem c6_nonzero_exit_failure_w :
    ((trainRasaFinish priorFS (some []) "dest" "proj" ["rasa", "train", "nlu"] 7
        ⟨1, "out", ""⟩).1 (pathJoin "dest" ("training_log_" ++ toString 7 ++ ".txt"))
      = some (.text ("CMD: " ++ pyJoin " " ["rasa", "train", "nlu"] ++ "\n\n" ++
          ("CWD: " ++ "proj" ++ "\n\n") ++
          "=== STDOUT ===\n" ++ ("out" ++ "\n\n") ++
          "=== STDERR ===\n" ++ ("" ++ "\n")))) ∧
    (trainRasaFinish priorFS (some []) "dest" "proj" ["rasa", "train", "nlu"] 7
        ⟨1, "out", ""⟩).2
      = .error ("Rasa training failed. See training log: " ++
          pathJoin "dest" ("training_log_" ++ toString 7 ++ ".txt") ++
          "\n\nSTDERR:\n" ++ pyTake "" 4000 ++
          "\n\nSTDOUT:\n" ++ pyTake "out" 4000) := by
  have h := c6_nonzero_exit_failure priorFS (some []) "dest" "proj"
    ["rasa", "train", "nlu"] 7 ⟨1, "out", ""⟩
  exact ⟨h.1, h.2.1 (by decide)⟩

/-! ## C7 -/

theorem sortByMtimeDesc_head {l : List (String × Nat)} {p : String × Nat}
    {t : List (String × Nat)} (h : sortByMtimeDesc l = p :: t) :
    p ∈ l ∧ ∀ q ∈ l, q.2 ≤ p.2 := by
  have hperm := List.perm_insertionSort mtimeGe l
  have hsorted := List.sorted_insertionSort mtimeGe l
  unfold sortByMtimeDesc at h
  rw [h] at hperm hsorted
  refine ⟨hperm.subset (List.mem_cons_self p t), ?_⟩
  intro q hq
  rcases List.mem_cons.mp ((hperm.symm.mem_iff).mp hq) with hq' | hq'
  · rw [hq']
  · exact (List.sorted_cons.mp hsorted).1 q hq'

/-- C7: after a zero-exit run, a missing archive is reported as a failure
naming the log file; otherwise the selected archive is a `*.tar.gz` entry
of the external models directory with maximal modification time, it is
copied to the timestamped local destination, the metadata sidecar is
written, and the local destination path is returned. -/
theorem c7_artifact_located_or_error (fs : FS) (listing : Option (List (String × Nat)))
    (destModelsDir rasaProjectPath : String) (cmd : List String) (ts : Nat)
    (proc : ProcResult) :
    (proc.returncode = 0 →
      findLatestRasaModel rasaProjectPath listing = none →
      (trainRasaFinish fs listing destModelsDir rasaProjectPath cmd ts proc).2
        = .error ("Rasa trained but no model file found in rasa_project/models. See log: "
            ++ pathJoin destModelsDir ("training_log_" ++ toString ts ++ ".txt"))) ∧
    (∀ entries, listing = some entries →
      ∀ latest, findLatestRasaModel rasaProjectPath listing = some latest →
      ∃ name mt, latest = pathJoin (pathJoin rasaProjectPath "models") name ∧
        (name, mt) ∈ entries.filter (fun p => globTarGz p.1) ∧
        ∀ q ∈ entries.filter (fun p => globTarGz p.1), q.2 ≤ mt) ∧
    (proc.returncode = 0 →
      ∀ latest, findLatestRasaModel rasaProjectPath listing = some latest →
      (trainRasaFinish fs listing destModelsDir rasaProjectPath cmd ts proc).2
        = .ok (pathJoin destModelsDir ("model_v" ++ toString ts ++ ".tar.gz")) ∧
      (trainRasaFinish fs listing destModelsDir rasaProjectPath cmd ts proc).1
          (pathJoin destModelsDir ("model_v" ++ toString ts ++ ".tar.gz"))
        = fsWrite fs (pathJoin destModelsDir ("training_log_" ++ toString ts ++ ".txt"))
            (.text (trainingLogContent cmd rasaProjectPath proc.stdout proc.stderr)) latest ∧
      (trainRasaFinish fs listing destModelsDir rasaProjectPath cmd ts proc).1
          (pathJoin destModelsDir "metadata.json")
        = some (.json ⟨"rasa_model", ts, "v" ++ toString ts,
            "model_v" ++ toString ts ++ ".tar.gz", latest,
            pathJoin destModelsDir ("training_log_" ++ toString ts ++ ".txt"),
            pyTake proc.stdout 4000, pyTake proc.stderr 4000⟩)) := by
  have hdestmeta : pathJoin destModelsDir ("model_v" ++ toString ts ++ ".tar.gz")
      ≠ pathJoin destModelsDir "metadata.json" :=
    pathJoin_ne_of_take destModelsDir 2
      (fun h => by cases (show (['m', 'o'] : List Char) = ['m', 'e'] from h))
  refine ⟨?_, ?_, ?_⟩
  · intro hrc hfind
    unfold trainRasaFinish
    simp [hrc, hfind]
  · intro entries hlist latest hfind
    rw [hlist] at hfind
    have hfind' : (match sortByMtimeDesc (entries.filter (fun p => globTarGz p.1)) with
        | [] => none
        | p :: _ => some (pathJoin (pathJoin rasaProjectPath "models") p.1)) = some latest :=
      hfind
    rcases hsort : sortByMtimeDesc (entries.filter (fun p => globTarGz p.1)) with _ | ⟨p, t⟩ <;>
      rw [hsort] at hfind'
    · cases hfind'
    · have hmax := sortByMtimeDesc_head hsort
      injection hfind' with hlat
      exact ⟨p.1, p.2, hlat.symm, hmax.1, hmax.2⟩
  · intro hrc latest hfind
    unfold trainRasaFinish
    simp [hrc, hfind, fsWrite, fsCopy, hdestmeta]

/-- Witness for C7 at a concrete listing: two archives with distinct
modification times and a non-archive file; the newer archive is selected. -/
theorem c7_artifact_located_or_error_w :
    (trainRasaFinish priorFS (some [("a.tar.gz", 5), ("b.tar.gz", 9), ("c.txt", 99)])
        "dest" "proj" ["rasa"] 7 ⟨0, "", ""⟩).2
      = .ok (pathJoin "dest" ("model_v" ++ toString 7 ++ ".tar.gz")) ∧
    (∃ name mt, pathJoin (pathJoin "proj" "models") "b.tar.gz"
        = pathJoin (pathJoin "proj" "models") name ∧
      (name, mt) ∈ ([("a.tar.gz", 5), ("b.tar.gz", 9), ("c.txt", 99)].filter
          (fun p => globTarGz p.1)) ∧
      ∀ q ∈ ([("a.tar.gz", 5), ("b.tar.gz", 9), ("c.txt", 99)].filter
          (fun p => globTarGz p.1)), q.2 ≤ mt) := by
  have h := c7_artifact_located_or_error priorFS
    (some [("a.tar.gz", 5), ("b.tar.gz", 9), ("c.txt", 99)]) "dest" "proj" ["rasa"] 7
    ⟨0, "", ""⟩
  refine ⟨(h.2.2 rfl (pathJoin (pathJoin "proj" "models") "b.tar.gz") (by decide)).1, ?_⟩
  exact h.2.1 [("a.tar.gz", 5), ("b.tar.gz", 9), ("c.txt", 99)] rfl
    (pathJoin (pathJoin "proj" "models") "b.tar.gz") (by decide)

/-! ## C8 -/

theorem all_eq_of_perm {α : Type} (p : α → Bool) {l₁ l₂ : List α} (h : l₁.Perm l₂) :
    l₁.all p = l₂.all p := by
  cases ha : l₁.all p <;> cases hb : l₂.all p <;> simp_all [List.all_eq_true]
  · obtain ⟨x, hx, hpx⟩ := ha
    exact absurd (hb x (h.mem_iff.mp hx)) (by simp [hpx])
  · obtain ⟨x, hx, hpx⟩ := hb
    exact absurd (ha x (h.mem_iff.mpr hx)) (by simp [hpx])

theorem sortByStart_eq_of_perm {l₁ l₂ : List Entity} (h : l₁.Perm l₂)
    (hd : l₁.Pairwise (fun a b => rasaStartKey a ≠ rasaStartKey b)) :
    sortByStart l₁ = sortByStart l₂ := by
  have hsym : Symmetric (fun a b : Entity => rasaStartKey a ≠ rasaStartKey b) :=
    fun _ _ hne => hne.symm
  have hperm₁ : (sortByStart l₁).Perm l₁ := List.perm_insertionSort startLe l₁
  have hperm₂ : (sortByStart l₂).Perm l₂ := List.perm_insertionSort startLe l₂
  have hs₁ : List.Sorted startLe (sortByStart l₁) := List.sorted_insertionSort startLe l₁
  have hs₂ : List.Sorted startLe (sortByStart l₂) := List.sorted_insertionSort startLe l₂
  have hd₁ : (sortByStart l₁).Pairwise (fun a b => rasaStartKey a ≠ rasaStartKey b) :=
    (hperm₁.pairwise_iff (fun hab => hsym hab)).mpr hd
  have hd₂ : (sortByStart l₂).Pairwise (fun a b => rasaStartKey a ≠ rasaStartKey b) :=
    (hperm₂.pairwise_iff (fun hab => hsym hab)).mpr ((h.pairwise_iff (fun hab => hsym hab)).mp hd)
  have hlt₁ : (sortByStart l₁).Pairwise (fun a b => rasaStartKey a < rasaStartKey b) :=
    (hs₁.and hd₁).imp (fun hab => lt_of_le_of_ne hab.1 hab.2)
  have hlt₂ : (sortByStart l₂).Pairwise (fun a b => rasaStartKey a < rasaStartKey b) :=
    (hs₂.and hd₂).imp (fun hab => lt_of_le_of_ne hab.1 hab.2)
  have hanti : IsAntisymm Entity (fun a b => rasaStartKey a < rasaStartKey b) :=
    ⟨fun a b hab hba => absurd hba (not_lt.mpr (le_of_lt hab))⟩
  exact @List.eq_of_perm_of_sorted Entity (fun a b => rasaStartKey a < rasaStartKey b) hanti
    (sortByStart l₁) (sortByStart l₂) (hperm₁.trans (h.trans hperm₂.symm)) hlt₁ hlt₂

/-- C8 counterexample: two entities sharing the same start offset: the
stable sort keeps their input order, so swapping them changes the emitted
markup — the output is not insertion-order independent as the claim states
it for every record with entities. -/
theorem c8_duplicate_start_order_dependent :
    ([(⟨some (.jint 0), some (.jint 1), some (.jstr "A")⟩ : Entity),
        ⟨some (.jint 0), some (.jint 1), some (.jstr "B")⟩].Perm
      [⟨some (.jint 0), some (.jint 1), some (.jstr "B")⟩,
        ⟨some (.jint 0), some (.jint 1), some (.jstr "A")⟩]) ∧
    rasaExample ⟨some "ab", none,
        some [⟨some (.jint 0), some (.jint 1), some (.jstr "A")⟩,
          ⟨some (.jint 0), some (.jint 1), some (.jstr "B")⟩]⟩
      = .ok (some ("unknown_intent", "[a](A)[a](B)b")) ∧
    rasaExample ⟨some "ab", none,
        some [⟨some (.jint 0), some (.jint 1), some (.jstr "B")⟩,
          ⟨some (.jint 0), some (.jint 1), some (.jstr "A")⟩]⟩
      = .ok (some ("unknown_intent", "[a](B)[a](A)b")) ∧
    ("[a](A)[a](B)b" : String) ≠ "[a](B)[a](A)b" := by
  refine ⟨.swap .., ?_, ?_, ?_⟩ <;> decide

/-- C8 amended: the converter does sort the spans by start offset before
emitting markup, and for records whose entities have pairwise-distinct
start keys the emitted example is invariant under permuting the input
entity list; with duplicate start offsets the stable sort preserves input
order, so only distinct-start records are insertion-order independent. -/
theorem c8_perm_invariant_distinct_starts (textO intentO : Option String)
    {l₁ l₂ : List Entity} (hperm : l₁.Perm l₂)
    (hd : l₁.Pairwise (fun a b => rasaStartKey a ≠ rasaStartKey b)) :
    rasaExample ⟨textO, intentO, some l₁⟩ = rasaExample ⟨textO, intentO, some l₂⟩ := by
  unfold rasaExample
  by_cases ht : pyStrip (textO.getD "") = ""
  · simp [ht]
  · simp only [ht, if_false]
    by_cases he : l₁ = []
    · have he₂ : l₂ = [] := by
        subst he
        exact hperm.nil_eq.symm
      rw [he, he₂]
    · have he₂ : l₂ ≠ [] := by
        intro h₂
        rw [h₂] at hperm
        exact he hperm.symm.nil_eq.symm
      have hall : startsOK l₁ = startsOK l₂ :=
        all_eq_of_perm (fun sp => (rasaStart sp).toBool) hperm
      have hsort : sortByStart l₁ = sortByStart l₂ := sortByStart_eq_of_perm hperm hd
      simp [he, he₂, hall, hsort]

/-- Witness for C8 amended: distinct starts, reversed input order, equal
output. -/
theorem c8_perm_invariant_distinct_starts_w :
    rasaExample ⟨some "book a flight to paris", none,
        some [⟨some (.jint 17), some (.jint 22), some (.jstr "city")⟩,
          ⟨some (.jint 5), some (.jint 6), some (.jstr "qty")⟩]⟩
      = rasaExample ⟨some "book a flight to paris", none,
          some [⟨some (.jint 5), some (.jint 6), some (.jstr "qty")⟩,
            ⟨some (.jint 17), some (.jint 22), some (.jstr "city")⟩]⟩ :=
  c8_perm_invariant_distinct_starts (some "book a flight to paris") none
    (List.Perm.swap _ _ _) (by decide)

/-! ## Extraction lemmas for the round trip -/

theorem splitAtChar_append {c : Char} {t : List Char} (r : List Char) (h : c ∉ t) :
    splitAtChar c (t ++ c :: r) = some (t, r) := by
  induction t with
  | nil => simp [splitAtChar]
  | cons x xs ih =>
    have hx : x ≠ c := fun he => h (he ▸ List.mem_cons_self x xs)
    have hxs : c ∉ xs := fun hm => h (List.mem_cons_of_mem x hm)
    simp [splitAtChar, hx, ih hxs]

theorem splitAtChar_lt {c : Char} :
    ∀ {l : List Char} {p : List Char × List Char},
      splitAtChar c l = some p → p.2.length < l.length := by
  intro l
  induction l with
  | nil => intro p h; cases h
  | cons x xs ih =>
    intro p h
    by_cases hx : x = c
    · rw [splitAtChar, if_pos hx] at h
      injection h with h'
      rw [← h']
      simp
    · rw [splitAtChar, if_neg hx] at h
      rcases hq : splitAtChar c xs with _ | q <;> rw [hq] at h
      · cases h
      · have h' : (x :: q.1, q.2) = p := by simpa using h
        have hlt := ih (p := q) hq
        rw [← h']
        simp only [List.length_cons]
        omega

theorem parseGroup_lt {l : List Char} {g : List Char × List Char} {r : List Char}
    (h : parseGroup l = some (g, r)) : r.length < l.length := by
  unfold parseGroup at h
  rcases h₁ : splitAtChar ']' l with _ | ⟨t, r₁⟩ <;> rw [h₁] at h
  · cases h
  · rcases r₁ with _ | ⟨c, r₂⟩
    · cases h
    · have h' : (if c = '(' then
          (match splitAtChar ')' r₂ with
            | none => none
            | some (lbl, r₃) => some ((t, lbl), r₃))
        else none) = some (g, r) := h
      by_cases hc : c = '('
      · rw [if_pos hc] at h'
        rcases h₂ : splitAtChar ')' r₂ with _ | ⟨lbl, r₃⟩ <;> rw [h₂] at h'
        · cases h'
        · have e₁ : (c :: r₂).length < l.length :=
            splitAtChar_lt (c := ']') (p := (t, c :: r₂)) h₁
          have e₂ : r₃.length < r₂.length := splitAtChar_lt (p := (lbl, r₃)) h₂
          injection h' with h''
          injection h'' with hg hr
          subst hr
          simp only [List.length_cons] at e₁
          omega
      · rw [if_neg hc] at h'
        cases h'

theorem parseGroup_shape {t lbl : List Char} (r : List Char)
    (h₁ : ']' ∉ t) (h₂ : ')' ∉ lbl) :
    parseGroup (t ++ ']' :: '(' :: (lbl ++ ')' :: r)) = some ((t, lbl), r) := by
  unfold parseGroup
  rw [splitAtChar_append ('(' :: (lbl ++ ')' :: r)) h₁]
  show (if ('(' : Char) = '(' then
      (match splitAtChar ')' (lbl ++ ')' :: r) with
        | none => none
        | some (lbl, r₃) => some ((t, lbl), r₃))
    else none) = some ((t, lbl), r)
  rw [if_pos rfl, splitAtChar_append r h₂]

theorem extractGroupsF_congr :
    ∀ (f₁ f₂ : Nat) (l : List Char), l.length ≤ f₁ → l.length ≤ f₂ →
      extractGroupsF f₁ l = extractGroupsF f₂ l := by
  intro f₁
  induction f₁ with
  | zero =>
    intro f₂ l h₁ h₂
    have : l = [] := List.length_eq_zero.mp (Nat.le_zero.mp h₁)
    subst this
    cases f₂ <;> rfl
  | succ f ih =>
    intro f₂ l h₁ h₂
    cases l with
    | nil => cases f₂ <;> rfl
    | cons c rest =>
      cases f₂ with
      | zero => simp at h₂
      | succ f' =>
        simp only [List.length_cons, Nat.succ_le_succ_iff] at h₁ h₂
        show extractGroupsF (f + 1) (c :: rest) = extractGroupsF (f' + 1) (c :: rest)
        by_cases hc : c = '['
        · show (if c = '[' then
              (match parseGroup rest with
                | some (g, r) => g :: extractGroupsF f r
                | none => extractGroupsF f rest)
            else extractGroupsF f rest)
            = (if c = '[' then
              (match parseGroup rest with
                | some (g, r) => g :: extractGroupsF f' r
                | none => extractGroupsF f' rest)
            else extractGroupsF f' rest)
          rw [if_pos hc, if_pos hc]
          rcases hp : parseGroup rest with _ | ⟨g, r⟩
          · show extractGroupsF f rest = extractGroupsF f' rest
            exact ih f' rest h₁ h₂
          · show g :: extractGroupsF f r = g :: extractGroupsF f' r
            have hlt := parseGroup_lt hp
            rw [ih f' r (by omega) (by omega)]
        · show (if c = '[' then
              (match parseGroup rest with
                | some (g, r) => g :: extractGroupsF f r
                | none => extractGroupsF f rest)
            else extractGroupsF f rest)
            = (if c = '[' then
              (match parseGroup rest with
                | some (g, r) => g :: extractGroupsF f' r
                | none => extractGroupsF f' rest)
            else extractGroupsF f' rest)
          rw [if_neg hc, if_neg hc]
          exact ih f' rest h₁ h₂

theorem extractGroups_cons_not_lb {c : Char} (l : List Char) (h : c ≠ '[') :
    extractGroups (c :: l) = extractGroups l := by
  unfold extractGroups
  show (if c = '[' then
      (match parseGroup l with
        | some (g, r) => g :: extractGroupsF l.length r
        | none => extractGroupsF l.length l)
    else extractGroupsF l.length l) = extractGroupsF l.length l
  rw [if_neg h]

theorem extractGroups_cons_lb (l : List Char) :
    extractGroups ('[' :: l)
      = (match parseGroup l with
         | some (g, r) => g :: extractGroups r
         | none => extractGroups l) := by
  show (if ('[' : Char) = '[' then
      (match parseGroup l with
        | some (g, r) => g :: extractGroupsF l.length r
        | none => extractGroupsF l.length l)
    else extractGroupsF l.length l)
    = (match parseGroup l with
       | some (g, r) => g :: extractGroups r
       | none => extractGroups l)
  rw [if_pos rfl]
  rcases hp : parseGroup l with _ | ⟨g, r⟩
  · show extractGroupsF l.length l = extractGroups l
    rfl
  · show g :: extractGroupsF l.length r = g :: extractGroups r
    have hlt := parseGroup_lt hp
    rw [extractGroupsF_congr l.length r.length r (by omega) (le_refl r.length)]
    rfl

theorem extractGroups_append_no_lb :
    ∀ (s r : List Char), '[' ∉ s → extractGroups (s ++ r) = extractGroups r := by
  intro s
  induction s with
  | nil => intro r _; rfl
  | cons c t ih =>
    intro r h
    have hc : c ≠ '[' := fun he => h (he ▸ List.mem_cons_self c t)
    have ht : '[' ∉ t := fun hm => h (List.mem_cons_of_mem c hm)
    rw [List.cons_append, extractGroups_cons_not_lb (t ++ r) hc, ih r ht]

theorem extractGroups_no_lb (l : List Char) (h : '[' ∉ l) : extractGroups l = [] := by
  have := extractGroups_append_no_lb l [] h
  rw [List.append_nil] at this
  rw [this]
  rfl

theorem extractGroups_group {t lbl : List Char} (r : List Char)
    (h₁ : ']' ∉ t) (h₂ : ')' ∉ lbl) :
    extractGroups ('[' :: (t ++ ']' :: '(' :: (lbl ++ ')' :: r)))
      = (t, lbl) :: extractGroups r := by
  rw [extractGroups_cons_lb, parseGroup_shape r h₁ h₂]

/-! ## Slice, replacement and chain lemmas -/

theorem data_mk (l : List Char) : (String.mk l).data = l := rfl

theorem pySlice_data (s : String) (i j : Int) :
    (pySlice s i j).data = pySliceList s.data i j := rfl

theorem replaceNewlines_data (s : String) :
    (replaceNewlines s).data = replNlList s.data := rfl

theorem pySliceFrom_data (s : String) (i : Int) :
    (pySliceFrom s i).data = s.data.drop (pySliceIdx s.data.length i) := rfl

theorem data_lb : ("[" : String).data = ['['] := rfl

theorem data_rbLp : ("](" : String).data = [']', '('] := rfl

theorem data_rp : (")" : String).data = [')'] := rfl

theorem mem_pySliceList {c : Char} {t : List Char} {i j : Int}
    (h : c ∈ pySliceList t i j) : c ∈ t :=
  List.mem_of_mem_take (List.mem_of_mem_drop h)

theorem mem_replNl {c : Char} {l : List Char} (h : c ∈ replNlList l) :
    c = ' ' ∨ c ∈ l := by
  obtain ⟨a, ha, hfa⟩ := List.mem_map.mp h
  by_cases hn : a = '\n'
  · rw [hn] at hfa
    simp at hfa
    exact Or.inl hfa.symm
  · rw [if_neg hn] at hfa
    exact Or.inr (hfa ▸ ha)

theorem noNl_replNl (l : List Char) : '\n' ∉ replNlList l := by
  intro h
  obtain ⟨a, ha, hfa⟩ := List.mem_map.mp h
  by_cases hn : a = '\n'
  · rw [if_pos hn] at hfa
    cases hfa
  · rw [if_neg hn] at hfa
    exact hn hfa

theorem replNl_eq_self : ∀ {l : List Char}, (∀ c ∈ l, c ≠ '\n') →
    replNlList l = l := by
  intro l
  induction l with
  | nil => intro _; rfl
  | cons c t ih =>
    intro h
    show (if c = '\n' then ' ' else c) :: replNlList t = c :: t
    rw [if_neg (h c (List.mem_cons_self c t)),
      ih (fun x hx => h x (List.mem_cons_of_mem c hx))]

theorem replNl_ne_of_mem {l : List Char} (h : '\n' ∈ l) : replNlList l ≠ l := by
  intro he
  apply noNl_replNl l
  rw [he]
  exact h

theorem bracketFree_mem {l : List Char} (hb : bracketFreeL l = true) {c : Char}
    (hc : c ∈ l) : c ≠ '[' ∧ c ≠ ']' ∧ c ≠ '(' ∧ c ≠ ')' := by
  have := List.all_eq_true.mp hb c hc
  simp only [Bool.not_eq_true', Bool.or_eq_false_iff, decide_eq_false_iff_not] at this
  exact ⟨this.1.1.1, this.1.1.2, this.1.2, this.2⟩

theorem rasaStart_key {sp : Entity} (h : (rasaStart sp).isOk = true) :
    rasaStart sp = .ok (rasaStartKey sp) := by
  rcases hs : rasaStart sp with m | v
  · rw [hs] at h
    simp [Except.isOk, Except.toBool] at h
  · simp [rasaStartKey, hs]

theorem rasaEnd_key {sp : Entity} (h : (rasaEnd sp).isOk = true) :
    rasaEnd sp = .ok (rasaEndKey sp) := by
  rcases hs : rasaEnd sp with m | v
  · rw [hs] at h
    simp [Except.isOk, Except.toBool] at h
  · simp [rasaEndKey, hs]

theorem chainOK_cons {n : Nat} {last : Int} {sp : Entity} {rest : List Entity}
    (h : chainOK n last (sp :: rest) = true) :
    rasaStart sp = .ok (rasaStartKey sp) ∧ rasaEnd sp = .ok (rasaEndKey sp) ∧
      last ≤ rasaStartKey sp ∧ rasaStartKey sp ≤ rasaEndKey sp ∧
      rasaEndKey sp ≤ (n : Int) ∧ chainOK n (rasaEndKey sp) rest = true := by
  unfold chainOK at h
  rcases hs : rasaStart sp with m | s <;> rcases he : rasaEnd sp with m' | e <;>
    rw [hs, he] at h
  · cases h
  · cases h
  · cases h
  · have hks : rasaStartKey sp = s := by simp [rasaStartKey, hs]
    have hke : rasaEndKey sp = e := by simp [rasaEndKey, he]
    simp only [Bool.and_eq_true, decide_eq_true_eq] at h
    rw [hks, hke]
    refine ⟨?_, ?_, h.1.1.1, h.1.1.2, h.1.2, h.2⟩
    · simp [hs]
    · simp [he]

theorem chainOK_all_ok {n : Nat} :
    ∀ {spans : List Entity} {last : Int}, chainOK n last spans = true →
      ∀ sp ∈ spans, (rasaStart sp).isOk = true ∧ (rasaEnd sp).isOk = true := by
  intro spans
  induction spans with
  | nil => intro last _ sp hm; cases hm
  | cons x rest ih =>
    intro last h sp hm
    obtain ⟨hs, he, _, _, _, hrest⟩ := chainOK_cons h
    rcases List.mem_cons.mp hm with hm' | hm'
    · subst hm'
      exact ⟨by rw [hs]; rfl, by rw [he]; rfl⟩
    · exact ih hrest sp hm'

theorem chainOK_start_lb {n : Nat} :
    ∀ {spans : List Entity} {last : Int}, chainOK n last spans = true →
      ∀ sp ∈ spans, last ≤ rasaStartKey sp := by
  intro spans
  induction spans with
  | nil => intro last _ sp hm; cases hm
  | cons x rest ih =>
    intro last h sp hm
    obtain ⟨_, _, hls, hse, _, hrest⟩ := chainOK_cons h
    rcases List.mem_cons.mp hm with hm' | hm'
    · subst hm'
      exact hls
    · have := ih hrest sp hm'
      omega

theorem chainOK_sorted {n : Nat} :
    ∀ {spans : List Entity} {last : Int}, chainOK n last spans = true →
      List.Sorted startLe spans := by
  intro spans
  induction spans with
  | nil => intro last _; exact List.sorted_nil
  | cons x rest ih =>
    intro last h
    obtain ⟨_, _, _, hse, _, hrest⟩ := chainOK_cons h
    refine List.sorted_cons.mpr ⟨?_, ih hrest⟩
    intro b hb
    have := chainOK_start_lb hrest b hb
    show rasaStartKey x ≤ rasaStartKey b
    omega

theorem chainOK_sort_fix {n : Nat} {spans : List Entity} {last : Int}
    (h : chainOK n last spans = true) : sortByStart spans = spans :=
  List.Sorted.insertionSort_eq (chainOK_sorted h)

theorem chainOK_startsOK {n : Nat} {spans : List Entity} {last : Int}
    (h : chainOK n last spans = true) : startsOK spans = true := by
  unfold startsOK
  rw [List.all_eq_true]
  intro sp hm
  exact (chainOK_all_ok h sp hm).1

theorem rasaLoop_shape (text : String) :
    ∀ (spans : List Entity) (last : Int) (acc : String),
      (∀ sp ∈ spans, (rasaStart sp).isOk = true ∧ (rasaEnd sp).isOk = true) →
      rasaLoop text spans last acc
        = .ok (String.mk (acc.data ++ rasaInterleaveData text.data (resolveSpans spans) last)) := by
  intro spans
  induction spans with
  | nil =>
    intro last acc _
    show Except.ok (acc ++ pySliceFrom text last) = _
    refine congrArg Except.ok (String.ext ?_)
    simp [String.data_append, pySliceFrom_data, data_mk, rasaInterleaveData, resolveSpans]
  | cons sp rest ih =>
    intro last acc h
    obtain ⟨⟨hs, he⟩, hrest⟩ := List.forall_mem_cons.mp h
    have hs' := rasaStart_key hs
    have he' := rasaEnd_key he
    show (match rasaStart sp, rasaEnd sp with
      | .ok s, .ok e =>
        rasaLoop text rest e
          ((acc ++ pySlice text last s) ++
            ("[" ++ replaceNewlines (pySlice text s e) ++ "](" ++ rasaLabel sp ++ ")"))
      | .error msg, _ => .error msg
      | .ok _, .error msg => .error msg) = _
    rw [hs', he']
    show rasaLoop text rest (rasaEndKey sp)
        ((acc ++ pySlice text last (rasaStartKey sp)) ++
          ("[" ++ replaceNewlines (pySlice text (rasaStartKey sp) (rasaEndKey sp)) ++
            "](" ++ rasaLabel sp ++ ")")) = _
    rw [ih (rasaEndKey sp) _ hrest]
    refine congrArg Except.ok (String.ext ?_)
    simp only [String.data_append, data_mk, pySlice_data, replaceNewlines_data,
      data_lb, data_rbLp, data_rp, resolveSpans, List.map_cons, rasaInterleaveData,
      List.append_assoc, List.cons_append, List.singleton_append, List.nil_append]

theorem extract_interleave (t : List Char) (ht : bracketFreeL t = true) :
    ∀ (rsp : List (Int × Int × List Char)) (last : Int),
      (∀ x ∈ rsp, bracketFreeL x.2.2 = true) →
      extractGroups (rasaInterleaveData t rsp last)
        = rsp.map (fun x => (replNlList (pySliceList t x.1 x.2.1), x.2.2)) := by
  intro rsp
  induction rsp with
  | nil =>
    intro last _
    apply extractGroups_no_lb
    intro hm
    have hmem : '[' ∈ t := List.mem_of_mem_drop hm
    exact absurd rfl (bracketFree_mem ht hmem).1
  | cons x rest ih =>
    intro last hl
    rcases x with ⟨s, e, lbl⟩
    have hlbl : bracketFreeL lbl = true := (hl (s, e, lbl) (List.mem_cons_self _ _))
    have hrest : ∀ y ∈ rest, bracketFreeL y.2.2 = true :=
      fun y hy => hl y (List.mem_cons_of_mem _ hy)
    show extractGroups (pySliceList t last s ++
        '[' :: (replNlList (pySliceList t s e) ++
          ']' :: '(' :: (lbl ++ ')' :: rasaInterleaveData t rest e))) = _
    rw [extractGroups_append_no_lb (pySliceList t last s) _
      (fun hm => absurd rfl (bracketFree_mem ht (mem_pySliceList hm)).1)]
    rw [extractGroups_group (rasaInterleaveData t rest e) ?ht ?hl]
    case ht =>
      intro hm
      rcases mem_replNl hm with h' | h'
      · cases h'
      · exact absurd rfl (bracketFree_mem ht (mem_pySliceList h')).2.1
    case hl =>
      intro hm
      exact absurd rfl (bracketFree_mem hlbl hm).2.2.2
    rw [ih e hrest]
    rfl

/-! ## C3 -/

/-- C3 counterexample: the claim's hypotheses hold for a newline span and
for a text containing `[`, yet re-extraction does not reproduce the
original substrings: the newline inside the span has been replaced by a
space, and a bracket in the text corrupts the group boundaries. -/
theorem c3_roundtrip_fails_newline_bracket :
    (chainOK (pyStrip "a\nb").length 0
        [⟨some (.jint 0), some (.jint 3), some (.jstr "x")⟩] = true ∧
      rasaExample ⟨some "a\nb", none,
          some [⟨some (.jint 0), some (.jint 3), some (.jstr "x")⟩]⟩
        = .ok (some ("unknown_intent", "[a b](x)")) ∧
      extractGroups ("[a b](x)" : String).data
        ≠ [(pySliceList (pyStrip "a\nb").data 0 3, ("x" : String).data)]) ∧
    (chainOK (pyStrip "[ab").length 0
        [⟨some (.jint 1), some (.jint 2), some (.jstr "L")⟩] = true ∧
      rasaExample ⟨some "[ab", none,
          some [⟨some (.jint 1), some (.jint 2), some (.jstr "L")⟩]⟩
        = .ok (some ("unknown_intent", "[[a](L)b")) ∧
      extractGroups ("[[a](L)b" : String).data
        ≠ [(pySliceList (pyStrip "[ab").data 1 2, ("L" : String).data)]) := by
  refine ⟨⟨?_, ?_, ?_⟩, ⟨?_, ?_, ?_⟩⟩ <;> decide

/-- C3 amended: for records whose entity spans are coercible,
non-overlapping, in ascending start order and within bounds, and whose
(stripped) text contains no bracket characters, whose labels contain no
bracket characters, and whose span texts contain no newline, converting to
Rasa markup and re-extracting every `[span-text](label)` group reproduces
exactly the original entity substrings and labels, in order. -/
theorem c3_roundtrip (text : String) (intentO : Option String) (spans : List Entity)
    (hchain : chainOK (pyStrip text).length 0 spans = true)
    (htext : bracketFreeL (pyStrip text).data = true)
    (hlbl : ∀ sp ∈ spans, bracketFreeL (rasaLabel sp).data = true)
    (hnl : ∀ sp ∈ spans,
      ∀ c ∈ pySliceList (pyStrip text).data (rasaStartKey sp) (rasaEndKey sp), c ≠ '\n')
    (hne : pyStrip text ≠ "") :
    ∃ ex : String,
      rasaExample ⟨some text, intentO, some spans⟩
        = .ok (some (intentO.getD "unknown_intent", ex)) ∧
      extractGroups ex.data
        = spans.map (fun sp =>
            (pySliceList (pyStrip text).data (rasaStartKey sp) (rasaEndKey sp),
              (rasaLabel sp).data)) := by
  by_cases hsp : spans = []
  · subst hsp
    refine ⟨pyStrip text, ?_, ?_⟩
    · unfold rasaExample
      simp [hne]
    · rw [extractGroups_no_lb (pyStrip text).data
        (fun hm => absurd rfl (bracketFree_mem htext hm).1)]
      rfl
  · have hco := chainOK_all_ok hchain
    have hok := chainOK_startsOK hchain
    have hfix := chainOK_sort_fix hchain
    have hloop := rasaLoop_shape (pyStrip text) spans 0 "" hco
    refine ⟨String.mk (rasaInterleaveData (pyStrip text).data (resolveSpans spans) 0),
      ?_, ?_⟩
    · unfold rasaExample
      simp only [Option.getD_some]
      rw [if_neg hne]
      have hspe : (spans.isEmpty) = false := by
        cases spans with
        | nil => exact absurd rfl hsp
        | cons a t => rfl
      simp only [hspe, Bool.false_eq_true, if_false, hok, if_true, hfix]
      rw [hloop]
      rfl
    · have hlbl' : ∀ x ∈ resolveSpans spans, bracketFreeL x.2.2 = true := by
        intro x hx
        obtain ⟨sp, hsp', hx'⟩ := List.mem_map.mp hx
        rw [← hx']
        exact hlbl sp hsp'
      rw [data_mk, extract_interleave (pyStrip text).data htext (resolveSpans spans) 0 hlbl']
      unfold resolveSpans
      rw [List.map_map]
      apply List.map_congr_left
      intro sp hm
      show (replNlList (pySliceList (pyStrip text).data (rasaStartKey sp) (rasaEndKey sp)),
          (rasaLabel sp).data) = _
      rw [replNl_eq_self (hnl sp hm)]

/-- Witness for C3 amended at the booking record. -/
theorem c3_roundtrip_w :
    ∃ ex : String,
      rasaExample ⟨some "book a flight to paris", none,
          some [⟨some (.jint 17), some (.jint 22), some (.jstr "city")⟩]⟩
        = .ok (some ("unknown_intent", ex)) ∧
      extractGroups ex.data
        = [⟨some (.jint 17), some (.jint 22), some (.jstr "city")⟩].map
            (fun sp : Entity =>
              (pySliceList (pyStrip "book a flight to paris").data
                  (rasaStartKey sp) (rasaEndKey sp),
                (rasaLabel sp).data)) :=
  c3_roundtrip "book a flight to paris" none
    [⟨some (.jint 17), some (.jint 22), some (.jstr "city")⟩]
    (by decide) (by decide) (by decide) (by decide) (by decide)

/-! ## C10 -/

/-- C10: the marked-example loop emits, for each entity span, the span
slice with every newline replaced by a space wrapped as
`[span-text](label)`, while the slices between spans are emitted
unchanged (the interleave shape); the replaced span text never contains a
newline, so a span whose text contains a newline is never reproduced
verbatim. -/
theorem c10_newline_replaced_in_spans (text : String) (spans : List Entity) (last : Int)
    (h : ∀ sp ∈ spans, (rasaStart sp).isOk = true ∧ (rasaEnd sp).isOk = true) :
    rasaLoop text spans last ""
      = .ok (String.mk (rasaInterleaveData text.data (resolveSpans spans) last)) ∧
    ∀ x ∈ resolveSpans spans,
      '\n' ∉ replNlList (pySliceList text.data x.1 x.2.1) ∧
      ('\n' ∈ pySliceList text.data x.1 x.2.1 →
        replNlList (pySliceList text.data x.1 x.2.1) ≠ pySliceList text.data x.1 x.2.1) := by
  constructor
  · have := rasaLoop_shape text spans last "" h
    simpa using this
  · intro x _
    exact ⟨noNl_replNl _, fun hm => replNl_ne_of_mem hm⟩

/-- Witness for C10 at a concrete newline-containing span. -/
theorem c10_newline_replaced_in_spans_w :
    rasaLoop "a\nb" [⟨some (.jint 0), some (.jint 3), some (.jstr "x")⟩] 0 ""
      = .ok (String.mk (rasaInterleaveData ("a\nb" : String).data
          (resolveSpans [⟨some (.jint 0), some (.jint 3), some (.jstr "x")⟩]) 0)) ∧
    ∀ x ∈ resolveSpans [⟨some (.jint 0), some (.jint 3), some (.jstr "x")⟩],
      '\n' ∉ replNlList (pySliceList ("a\nb" : String).data x.1 x.2.1) ∧
      ('\n' ∈ pySliceList ("a\nb" : String).data x.1 x.2.1 →
        replNlList (pySliceList ("a\nb" : String).data x.1 x.2.1)
          ≠ pySliceList ("a\nb" : String).data x.1 x.2.1) :=
  c10_newline_replaced_in_spans "a\nb"
    [⟨some (.jint 0), some (.jint 3), some (.jstr "x")⟩] 0 (by decide)
